import Mathlib

/-!
Shallow embedding of the vssh shell execution engine
(src/vssh/src/bin/vssh.rs) and proofs about its behaviour.

Conventions of the embedding:
- Rust strings are Lean `String` (a list of characters); machine pids are `Nat`.
- The process environment (`std::env::var`) and the shell-local variable
  table (`env_vars: HashMap<String, String>`) are both modelled as total
  functions `String -> Option String`.
- OS effects that can fail (opening a redirection file, spawning a process,
  canonicalizing a path) are modelled by boolean / optional oracles packed
  in `OsModel` and `FsModel`; the shell code is translated faithfully on
  top of those oracles.
- `std::process::exit(1)` inside the shell is modelled by the `fatal`
  result constructor: it terminates the whole shell process.
-/

/-- Whitespace test used by the embedding of `str::split_whitespace`
(ASCII whitespace; the inputs considered here are ASCII). -/
def isWsChar (c : Char) : Bool := c = ' ' || c = '\t' || c = '\n' || c = '\r'

/-- Characters accepted into a variable name by `expand_variables`
(vssh.rs:181): `next.is_alphanumeric() || next == '_'`. `Char.isAlphanum`
models the Rust Unicode test on the ASCII range used here. -/
def isNameChar (c : Char) : Bool := c.isAlphanum || c = '_'

/-- Worker for `splitWs`: accumulates the current word (reversed). -/
def wordsAux : List Char → List Char → List (List Char)
  | [], [] => []
  | [], acc => [acc.reverse]
  | c :: cs, acc =>
    if isWsChar c then
      match acc with
      | [] => wordsAux cs []
      | _ :: _ => acc.reverse :: wordsAux cs []
    else wordsAux cs (c :: acc)

/-- Embedding of `str::split_whitespace` (used at vssh.rs:83, 208, 272):
splits on whitespace runs, producing no empty words. It also stands in for
`shell_words::split` (vssh.rs:145), with which it agrees on inputs that
contain no quoting or escaping (all inputs considered in this file). -/
def splitWs (s : String) : List String :=
  (wordsAux s.data []).map (fun l => String.mk l)

/-- Embedding of `Vec::join(" ")` (vssh.rs:170). -/
def joinWs : List String → String
  | [] => ""
  | [w] => w
  | w :: ws => w ++ " " ++ joinWs ws

/-- Variable lookup chain of `expand_variables` (vssh.rs:188-192): the
shell-local table first, then the process environment, else nothing
(the reference disappears). Returns the character list pushed to the
output. -/
def lookupVar (locals envv : String → Option String) (nm : String) : List Char :=
  match locals nm with
  | some v => v.data
  | none =>
    match envv nm with
    | some v => v.data
    | none => []

/-- Embedding of the character loop of `expand_variables` (vssh.rs:173-199).
The first argument is the scanner state: `none` means ordinary copying;
`some acc` means a `$` was seen and `acc` holds the (reversed) name
characters collected so far, mirroring the inner `peek` loop. -/
def expandStep (locals envv : String → Option String) :
    Option (List Char) → List Char → List Char
  | none, [] => []
  | some acc, [] => lookupVar locals envv (String.mk acc.reverse)
  | none, c :: cs =>
    if c = '$' then expandStep locals envv (some []) cs
    else c :: expandStep locals envv none cs
  | some acc, c :: cs =>
    if isNameChar c then expandStep locals envv (some (c :: acc)) cs
    else
      lookupVar locals envv (String.mk acc.reverse) ++
        (if c = '$' then expandStep locals envv (some []) cs
         else c :: expandStep locals envv none cs)

/-- Embedding of `expand_variables` (vssh.rs:173-199). -/
def expandVariables (locals envv : String → Option String) (s : String) : String :=
  String.mk (expandStep locals envv none s.data)

/-- Worker for `parseRedirections`, the `while i < parts.len()` loop of
`parse_redirections` (vssh.rs:150-168). `cmd` is the accumulated argument
vector (reversed); `si` and `so` are the current stdin / stdout targets.
An operator token whose following token is missing is skipped, exactly as
in the source (the `if i + 1 < parts.len()` guards). -/
def parseRedirAux : List String → List String → Option String → Option String →
    List String × Option String × Option String
  | [], cmd, si, so => (cmd.reverse, si, so)
  | t :: rest, cmd, si, so =>
    if t = ">" then
      match rest with
      | [] => (cmd.reverse, si, so)
      | f :: rest2 => parseRedirAux rest2 cmd si (some f)
    else if t = "<" then
      match rest with
      | [] => (cmd.reverse, si, so)
      | f :: rest2 => parseRedirAux rest2 cmd (some f) so
    else parseRedirAux rest (t :: cmd) si so

/-- Embedding of `parse_redirections` (vssh.rs:144-171) at the token level:
returns the remaining argument tokens, the stdin target and the stdout
target. The source joins the tokens back into one string; `joinWs` is
applied at the call sites that need it. -/
def parseRedirections (ts : List String) :
    List String × Option String × Option String :=
  parseRedirAux ts [] none none

/-- Per-stage processing of `process_piped_commands` (vssh.rs:206-208):
extract redirections from the raw segment, then expand variables in the
joined command string only, then re-split into argv words. The extracted
redirection targets are kept verbatim. -/
def stagePlan (locals envv : String → Option String) (segment : String) :
    List String × Option String × Option String :=
  (splitWs (expandVariables locals envv
      (joinWs (parseRedirections (splitWs segment)).1)),
   (parseRedirections (splitWs segment)).2)

/-- Character membership in a `String`, embedding `str::contains('=')`
(vssh.rs:89). -/
def containsChar (s : String) (c : Char) : Bool := s.data.contains c

/-- Embedding of `str::starts_with('=')` (vssh.rs:89). -/
def startsWithChar (s : String) (c : Char) : Bool :=
  match s.data with
  | [] => false
  | d :: _ => d = c

/-- Embedding of `splitn(2, '=')` on a string known to contain `=`
(vssh.rs:90-92): the key is everything before the first `=`, the value
everything after it. -/
def splitOnceEq (s : String) : String × String :=
  (String.mk (s.data.takeWhile (fun c => c != '=')),
   String.mk ((s.data.dropWhile (fun c => c != '=')).tail))

/-- What `process_command` (vssh.rs:82-106) decides to do with a single
(pipe-free) command segment: assignment, a builtin, nothing, or handing
the redirection-stripped command to `execute_external_command`. -/
inductive CommandAction where
  | skip
  | assign (key value : String)
  | builtinCd (arg : Option String)
  | builtinExit
  | builtinPwd
  | external (cmd : String) (stdinFile stdoutFile : Option String)
  deriving DecidableEq

/-- Embedding of the dispatch logic of `process_command` (vssh.rs:82-106). -/
def processCommand (command : String) : CommandAction :=
  match splitWs command with
  | [] => .skip
  | p0 :: rest =>
    if containsChar p0 '=' && !startsWithChar p0 '=' then
      .assign (splitOnceEq p0).1 (splitOnceEq p0).2
    else
      match p0 with
      | "cd" => .builtinCd rest.head?
      | "exit" => .builtinExit
      | "pwd" => .builtinPwd
      | _ =>
        .external (joinWs (parseRedirections (splitWs command)).1)
          (parseRedirections (splitWs command)).2.1
          (parseRedirections (splitWs command)).2.2

/-- Where a stage reads its standard input from. -/
inductive StdinSrc where
  | inherit
  | fromFile (path : String)
  | fromPipe
  deriving DecidableEq

/-- Where a stage writes its standard output to. -/
inductive StdoutDst where
  | inherit
  | toFile (path : String)
  | toPipe
  deriving DecidableEq

/-- One spawned OS process: its argv and the wiring of its standard
streams. `pid` numbers the spawned processes in spawn order, standing in
for the OS process identifier returned by `Child::id()`. -/
structure StageWiring where
  argv : List String
  stdin : StdinSrc
  stdout : StdoutDst
  pid : Nat
  deriving DecidableEq

/-- Placeholder wiring used with `List.getD`. -/
def dummyStage : StageWiring := ⟨[], .inherit, .inherit, 0⟩

/-- Oracle for the fallible OS calls made while launching a command:
whether `Command::spawn` succeeds for a given argv, and whether opening
an input / output redirection file succeeds. -/
structure OsModel where
  spawnOk : List String → Bool
  openInOk : String → Bool
  openOutOk : String → Bool

/-- Result of handing one command line to the execution engine.
`fatal code` models `std::process::exit(code)` (vssh.rs:220, 235, 244):
the whole shell process terminates. `reportedError` models an `eprintln!`
followed by normal continuation of the shell session. `ran` records the
spawned stages, the pids waited on (in order), the pids recorded as
background jobs, and whether the Running-in-background message was
printed. -/
inductive ShellStep where
  | fatal (code : Nat)
  | reportedError (msg : String)
  | noOp
  | ran (stages : List StageWiring) (waited : List Nat) (jobs : List Nat)
      (printedBg : Bool)
  deriving DecidableEq

/-- True exactly on the `fatal` constructor. -/
def ShellStep.isFatal : ShellStep → Bool
  | .fatal _ => true
  | _ => false

/-- Spawn step of `execute_external_command` (vssh.rs:304-316): on spawn
success either record a background job and print, or wait for the single
child; on failure report to standard error and continue. -/
def execSpawn (os : OsModel) (parts : List String) (src : StdinSrc)
    (dst : StdoutDst) (background : Bool) : ShellStep :=
  if os.spawnOk parts then
    if background then .ran [⟨parts, src, dst, 0⟩] [] [0] true
    else .ran [⟨parts, src, dst, 0⟩] [0] [] false
  else .reportedError "Failed to execute command"

/-- Stdout redirection step of `execute_external_command` (vssh.rs:290-302):
the target file is opened with write+create+truncate; failure is reported
and the function returns without spawning. -/
def execWithStdin (os : OsModel) (parts : List String) (src : StdinSrc)
    (stdoutFile : Option String) (background : Bool) : ShellStep :=
  match stdoutFile with
  | some f =>
    if os.openOutOk f then execSpawn os parts src (.toFile f) background
    else .reportedError ("Failed to open output file: " ++ f)
  | none => execSpawn os parts src .inherit background

/-- Embedding of `execute_external_command` (vssh.rs:264-317): expand
variables in the redirection-stripped command, split into argv, wire the
redirections, spawn. Every failure path reports and continues; none is
fatal to the shell. -/
def executeExternalCommand (os : OsModel) (locals envv : String → Option String)
    (command : String) (stdinFile stdoutFile : Option String)
    (background : Bool) : ShellStep :=
  match splitWs (expandVariables locals envv command) with
  | [] => .noOp
  | p0 :: prest =>
    match stdinFile with
    | some f =>
      if os.openInOk f then
        execWithStdin os (p0 :: prest) (.fromFile f) stdoutFile background
      else .reportedError ("Failed to open input file: " ++ f)
    | none => execWithStdin os (p0 :: prest) .inherit stdoutFile background

/-- Stdin wiring of one pipeline stage (vssh.rs:217-225): only the first
stage (`i == 0`) honours a stdin redirection file, and a failed open is
fatal (`std::process::exit(1)`); otherwise the stage consumes the pipe
from the previous stage when one is pending (`previous_stdout.take()`),
else inherits. The returned Bool is the pending-pipe flag after the
`take`. -/
def stageStdin (os : OsModel) (i : Nat) (stdinFile : Option String)
    (prevPipe : Bool) : Except Nat (StdinSrc × Bool) :=
  match i, stdinFile with
  | 0, some f =>
    if os.openInOk f then .ok (.fromFile f, prevPipe) else .error 1
  | _, _ =>
    if prevPipe then .ok (.fromPipe, false) else .ok (.inherit, prevPipe)

/-- Stdout wiring of one pipeline stage among `n` (vssh.rs:227-240): only
the last stage (`i == n - 1`) honours a stdout redirection file (opened
with truncate), and a failed open is fatal; every non-last stage gets a
pipe; a last stage without redirection inherits. -/
def stageStdout (os : OsModel) (i n : Nat) (stdoutFile : Option String) :
    Except Nat StdoutDst :=
  match stdoutFile with
  | some f =>
    if i = n - 1 then
      if os.openOutOk f then .ok (.toFile f) else .error 1
    else if i < n - 1 then .ok .toPipe
    else .ok .inherit
  | none => if i < n - 1 then .ok .toPipe else .ok .inherit

/-- The spawn loop of `process_piped_commands` (vssh.rs:205-252) over the
remaining segments. `n` is the total number of segments, `i` the index of
the first remaining segment, `prevPipe` whether a pipe from the previous
stage is pending, `pid` the next spawn-order pid. `Except.error c` models
the shell process exiting with code `c`; on success the list of spawned
stages is returned in order. A stage whose expanded argv is empty is
skipped (`continue`, vssh.rs:209-211). Spawn failure is fatal
(vssh.rs:242-245). -/
def spawnStages (os : OsModel) (locals envv : String → Option String) (n : Nat) :
    List String → Nat → Bool → Nat → Except Nat (List StageWiring)
  | [], _, _, _ => .ok []
  | seg :: rest, i, prevPipe, pid =>
    if (stagePlan locals envv seg).1 = [] then
      spawnStages os locals envv n rest (i + 1) prevPipe pid
    else
      match stageStdin os i (stagePlan locals envv seg).2.1 prevPipe with
      | .error c => .error c
      | .ok sp =>
        match stageStdout os i n (stagePlan locals envv seg).2.2 with
        | .error c => .error c
        | .ok dst =>
          if os.spawnOk (stagePlan locals envv seg).1 then
            match spawnStages os locals envv n rest (i + 1)
                (if i < n - 1 then true else sp.2) (pid + 1) with
            | .error c => .error c
            | .ok tail =>
              .ok (⟨(stagePlan locals envv seg).1, sp.1, dst, pid⟩ :: tail)
          else .error 1

/-- Embedding of `process_piped_commands` (vssh.rs:201-262): spawn all
stages, then either wait for every stage in order (foreground,
vssh.rs:254-257) or record the last stage as a background job and print
the Running-in-background message (vssh.rs:258-261). -/
def processPipedCommands (os : OsModel) (locals envv : String → Option String)
    (segments : List String) (background : Bool) : ShellStep :=
  match spawnStages os locals envv segments.length segments 0 false 0 with
  | .error c => .fatal c
  | .ok stages =>
    if background then
      match stages.getLast? with
      | some ch => .ran stages [] [ch.pid] true
      | none => .ran stages [] [] false
    else .ran stages (stages.map (fun s => s.pid)) [] false

/-- The shell state owned by the main loop (vssh.rs:10-16). The variable
table is modelled as a lookup function. -/
structure ShellState where
  currentDir : String
  previousDir : Option String
  envVars : String → Option String
  running : Bool
  backgroundPids : List Nat

/-- Oracle for the filesystem calls made by `change_directory`:
`std::fs::canonicalize` (partial), `Path::is_dir`, `dirs::home_dir` and
`env::set_current_dir`. -/
structure FsModel where
  canonicalize : String → Option String
  isDir : String → Bool
  home : Option String
  setCwdOk : String → Bool

/-- Embedding of `Path::is_absolute` on Unix (vssh.rs:121): the path
starts with a slash. -/
def pathIsAbsolute (p : String) : Bool :=
  match p.data with
  | [] => false
  | c :: _ => c = '/'

/-- Embedding of `PathBuf::join` for a relative right-hand side
(vssh.rs:124). The joined path is only ever passed to the abstract
`canonicalize` oracle. -/
def pathJoin (base p : String) : String := base ++ "/" ++ p

/-- Outcome of the `cd` builtin. `errSetCwdFailed` corresponds to
`env::set_current_dir` failing after the state fields were already
updated (vssh.rs:133-135). -/
inductive CdOutcome where
  | ok
  | errNoPrevious
  | errInvalidPath (path : String)
  | errNotDirectory (path : String)
  | errSetCwdFailed (path : String)
  deriving DecidableEq

/-- Target-resolution table of `change_directory` (vssh.rs:109-127):
no argument or `~` resolves to the home directory (or `/`), `-` to the
recorded previous directory (`none` meaning the No-previous-directory
error), an absolute path to itself, a relative path joined onto the
current directory. -/
def cdTarget (fs : FsModel) (st : ShellState) (dir : Option String) :
    Option String :=
  match dir with
  | none => some (fs.home.getD "/")
  | some "~" => some (fs.home.getD "/")
  | some "-" => st.previousDir
  | some path =>
    some (if pathIsAbsolute path then path else pathJoin st.currentDir path)

/-- Embedding of `change_directory` (vssh.rs:108-142): resolve the target,
canonicalize it, require a directory, then update `previous_dir` and
`current_dir` and call the OS primitive. Every error path returns the
state unchanged except `errSetCwdFailed`, where the source has already
updated the fields before the OS call fails. -/
def changeDirectory (fs : FsModel) (st : ShellState) (dir : Option String) :
    ShellState × CdOutcome :=
  match cdTarget fs st dir with
  | none => (st, .errNoPrevious)
  | some newDir =>
    match fs.canonicalize newDir with
    | none => (st, .errInvalidPath newDir)
    | some canonical =>
      if fs.isDir canonical then
        let st2 := { st with previousDir := some st.currentDir,
                             currentDir := canonical }
        if fs.setCwdOk canonical then (st2, .ok)
        else (st2, .errSetCwdFailed canonical)
      else (st, .errNotDirectory newDir)

/-- Rust `OpenOptions` flags relevant to the output-redirection open. -/
structure OpenOpts where
  write : Bool
  create : Bool
  truncate : Bool
  append : Bool
  deriving DecidableEq

/-- The exact option set used for every output redirection in the source:
`OpenOptions::new().write(true).create(true).truncate(true)`
(vssh.rs:228-232 and vssh.rs:291-295). No call site sets `append`. -/
def outputOpenOpts : OpenOpts := ⟨true, true, true, false⟩

/-- Content of a file after opening it with the given options and writing
`data`, as POSIX open/write semantics dictate: truncate discards the old
content, append keeps it and writes after it, otherwise writing starts at
offset zero (for the whole-content writes considered here, that replaces
the content). -/
def fileContentAfterOpenWrite (opts : OpenOpts) (old : Option String)
    (data : String) : Option String :=
  if !opts.write then old
  else
    match old with
    | none => if opts.create then some data else none
    | some s =>
      if opts.truncate then some data
      else if opts.append then some (s ++ data)
      else some data

/-- Lookup table that is empty everywhere: used as a concrete local
variable table and process environment. -/
def f0 : String → Option String := fun _ => none

/-- OS oracle on which every call succeeds. -/
def osT : OsModel := ⟨fun _ => true, fun _ => true, fun _ => true⟩

/-- OS oracle on which spawning `nosuchcmd` fails and everything else
succeeds. -/
def osFail : OsModel := ⟨fun a => a != ["nosuchcmd"], fun _ => true, fun _ => true⟩

/-- OS oracle on which spawning `nosuch2` fails and everything else
succeeds. -/
def osFail2 : OsModel := ⟨fun a => a != ["nosuch2"], fun _ => true, fun _ => true⟩

/-- Local variable table binding only `X` to `1`. -/
def lX : String → Option String := fun n => if n = "X" then some "1" else none

/-- Process environment binding only `X` to `2`. -/
def eX : String → Option String := fun n => if n = "X" then some "2" else none

/-- Local variable table binding only `F` to `file`. -/
def lF : String → Option String := fun n => if n = "F" then some "file" else none

/-- Filesystem oracle on which no path canonicalizes. -/
def fs0 : FsModel :=
  ⟨fun _ => none, fun _ => false, some "/home/u", fun _ => true⟩

/-- A concrete shell state used as a witness input. -/
def st0 : ShellState :=
  ⟨"/w", none, fun _ => none, true, []⟩

/-- Stage wiring produced by the pipeline `seq 5 | wc -l` when every OS
call succeeds. -/
def ws4 : List StageWiring :=
  [⟨["seq", "5"], .inherit, .toPipe, 0⟩,
   ⟨["wc", "-l"], .fromPipe, .inherit, 1⟩]

/-- The three-stage witness pipeline with end redirections. -/
def segs7 : List String := ["cat < in.txt", "tr a b", "wc -l > out.txt"]

/-- Stage wiring produced by `segs7` when every OS call succeeds. -/
def ws7 : List StageWiring :=
  [⟨["cat"], .fromFile "in.txt", .toPipe, 0⟩,
   ⟨["tr", "a", "b"], .fromPipe, .toPipe, 1⟩,
   ⟨["wc", "-l"], .fromPipe, .toFile "out.txt", 2⟩]

/-- Helper: a non-operator token is pushed onto the argument accumulator. -/
theorem parseRedirAux_cons_word (t : String) (xs acc : List String)
    (si so : Option String) (ht1 : ¬(t = ">")) (ht2 : ¬(t = "<")) :
    parseRedirAux (t :: xs) acc si so = parseRedirAux xs (t :: acc) si so := by
  cases xs with
  | nil => rw [parseRedirAux.eq_2, if_neg ht1, if_neg ht2]
  | cons y ys => rw [parseRedirAux.eq_3, if_neg ht1, if_neg ht2]

/-- Helper: `>` with a following token records that token as the stdout
target. -/
theorem parseRedirAux_gt (f : String) (xs acc : List String)
    (si so : Option String) :
    parseRedirAux (">" :: f :: xs) acc si so =
      parseRedirAux xs acc si (some f) := by
  rw [parseRedirAux.eq_3, if_pos rfl]

/-- Helper: `<` with a following token records that token as the stdin
target. -/
theorem parseRedirAux_lt (f : String) (xs acc : List String)
    (si so : Option String) :
    parseRedirAux ("<" :: f :: xs) acc si so =
      parseRedirAux xs acc (some f) so := by
  rw [parseRedirAux.eq_3, if_neg (by decide : ¬("<" = ">")), if_pos rfl]

/-- Helper: a trailing `>` with no following token is dropped. -/
theorem parseRedirAux_gt_last (acc : List String) (si so : Option String) :
    parseRedirAux [">"] acc si so = (acc.reverse, si, so) := by
  rw [parseRedirAux.eq_2, if_pos rfl]

/-- Helper: a trailing `<` with no following token is dropped. -/
theorem parseRedirAux_lt_last (acc : List String) (si so : Option String) :
    parseRedirAux ["<"] acc si so = (acc.reverse, si, so) := by
  rw [parseRedirAux.eq_2, if_neg (by decide : ¬("<" = ">")), if_pos rfl]

/-- Helper: the redirection loop walks over operator-free tokens by
pushing them onto the argument accumulator. -/
theorem parseRedirAux_words : ∀ (ts rest acc : List String) (si so : Option String),
    ">" ∉ ts → "<" ∉ ts →
    parseRedirAux (ts ++ rest) acc si so =
      parseRedirAux rest (ts.reverse ++ acc) si so := by
  intro ts
  induction ts with
  | nil => intro rest acc si so _ _; simp
  | cons t ts ih =>
    intro rest acc si so h1 h2
    have ht1 : ¬(t = ">") := by intro h; exact h1 (by simp [h])
    have ht2 : ¬(t = "<") := by intro h; exact h2 (by simp [h])
    have h1a : ">" ∉ ts := by intro h; exact h1 (List.mem_cons_of_mem _ h)
    have h2a : "<" ∉ ts := by intro h; exact h2 (List.mem_cons_of_mem _ h)
    rw [List.cons_append,
        parseRedirAux_cons_word t (ts ++ rest) acc si so ht1 ht2,
        ih rest (t :: acc) si so h1a h2a]
    simp [List.append_assoc]

/-- C8: when several redirection directives target the same stream within
one stage (two `>` operators with different target files), the last
directive wins: the stream is attached to the last-listed target and the
earlier target is dropped. -/
theorem redirection_last_wins (ws : List String) (f1 f2 : String)
    (h1 : ">" ∉ ws) (h2 : "<" ∉ ws) :
    parseRedirections (ws ++ [">", f1, ">", f2]) = (ws, none, some f2) := by
  unfold parseRedirections
  rw [parseRedirAux_words ws [">", f1, ">", f2] [] none none h1 h2,
      parseRedirAux_gt, parseRedirAux_gt, parseRedirAux.eq_1]
  simp

/-- Witness for `redirection_last_wins` at a concrete command. -/
theorem redirection_last_wins_witness :
    parseRedirections ["echo", "a", ">", "f1", ">", "f2"] =
      (["echo", "a"], none, some "f2") :=
  redirection_last_wins ["echo", "a"] "f1" "f2" (by decide) (by decide)

/-- C2 counterexample: with a redirection operator as last token the shell
does not report a syntax error and does not discard the line; the command
is dispatched as an external command with the operator dropped, and a
process is spawned. -/
theorem trailing_redirect_spawns_without_error :
    processCommand "cmd >" = CommandAction.external "cmd" none none ∧
    executeExternalCommand osT f0 f0 "cmd" none none false =
      ShellStep.ran [⟨["cmd"], .inherit, .inherit, 0⟩] [0] [] false :=
  ⟨by decide, by decide⟩

/-- C2 amended: a trailing `>` or `<` with no following token is silently
dropped by the redirection parser; the rest of the command is kept and
executed without that redirection, and no error is reported. -/
theorem trailing_operator_silently_dropped (ws : List String)
    (h1 : ">" ∉ ws) (h2 : "<" ∉ ws) :
    parseRedirections (ws ++ [">"]) = (ws, none, none) ∧
    parseRedirections (ws ++ ["<"]) = (ws, none, none) := by
  refine ⟨?_, ?_⟩
  · unfold parseRedirections
    rw [parseRedirAux_words ws [">"] [] none none h1 h2, parseRedirAux_gt_last]
    simp
  · unfold parseRedirections
    rw [parseRedirAux_words ws ["<"] [] none none h1 h2, parseRedirAux_lt_last]
    simp

/-- Witness for `trailing_operator_silently_dropped` at a concrete
command. -/
theorem trailing_operator_silently_dropped_witness :
    parseRedirections ["echo", "hi", ">"] = (["echo", "hi"], none, none) ∧
    parseRedirections ["echo", "hi", "<"] = (["echo", "hi"], none, none) :=
  trailing_operator_silently_dropped ["echo", "hi"] (by decide) (by decide)

/-- C3 counterexample: `>>` is not recognized as a redirection operator;
`echo b >> f` is dispatched with `>>` and `f` as ordinary argv words and
no output redirection, so nothing is appended to `f`. -/
theorem append_operator_not_recognized :
    processCommand "echo b >> f" =
      CommandAction.external "echo b >> f" none none ∧
    executeExternalCommand osT f0 f0 "echo b >> f" none none false =
      ShellStep.ran [⟨["echo", "b", ">>", "f"], .inherit, .inherit, 0⟩]
        [0] [] false :=
  ⟨by decide, by decide⟩

/-- C3 amended: output redirection with `>` truncates the target (the open
options force truncate, so afterwards the file holds exactly the new
data), while `>>` is not a redirection operator at all: it is passed
through to the command as an ordinary argument and no append mode
exists. -/
theorem gt_truncates_and_gtgt_is_ordinary_argument :
    (∀ old data, fileContentAfterOpenWrite outputOpenOpts old data = some data) ∧
    parseRedirections ["echo", "a", ">", "f"] = (["echo", "a"], none, some "f") ∧
    parseRedirections ["echo", "b", ">>", "f"] =
      (["echo", "b", ">>", "f"], none, none) := by
  refine ⟨fun old data => ?_, by decide, by decide⟩
  cases old <;> rfl

/-- C9: redirection target paths are never variable-expanded. The targets
produced by the per-stage plan do not depend on the variable tables at
all, `cmd > $F` opens a file literally named `$F` even when `F` is set,
and only the remaining argv words undergo substitution. -/
theorem redirect_targets_not_expanded :
    (∀ (l l2 e e2 : String → Option String) (seg : String),
        (stagePlan l e seg).2 = (stagePlan l2 e2 seg).2) ∧
    stagePlan lF f0 "cmd > $F" = (["cmd"], none, some "$F") ∧
    stagePlan lF f0 "echo $F > $F" = (["echo", "file"], none, some "$F") :=
  ⟨fun _ _ _ _ _ => rfl, by decide, by decide⟩


/-- Helper: the name scanner consumes exactly the name characters, emits
the looked-up value, and resumes ordinary scanning at the first non-name
character. -/
theorem expandStep_scan (l e : String → Option String) :
    ∀ (nm acc rest : List Char),
      (∀ c ∈ nm, isNameChar c = true) →
      (∀ c, rest.head? = some c → isNameChar c = false) →
      expandStep l e (some acc) (nm ++ rest) =
        lookupVar l e (String.mk (acc.reverse ++ nm)) ++
          expandStep l e none rest := by
  intro nm
  induction nm with
  | nil =>
    intro acc rest _ hrest
    cases rest with
    | nil => simp [expandStep]
    | cons c cs =>
      have hc : isNameChar c = false := hrest c rfl
      simp [expandStep, hc]
  | cons a nm ih =>
    intro acc rest hname hrest
    have ha : isNameChar a = true := hname a (List.mem_cons_self a nm)
    have hname2 : ∀ c ∈ nm, isNameChar c = true :=
      fun c hc => hname c (List.mem_cons_of_mem _ hc)
    rw [List.cons_append]
    simp only [expandStep, ha, if_true]
    rw [ih (a :: acc) rest hname2 hrest]
    simp

/-- C6: expansion of a `$NAME` reference substitutes the shell-local
variable value when present, else the process environment value, else the
empty string; the `lookupVar` chain in the statement is exactly that
precedence order. -/
theorem expand_variable_precedence (l e : String → Option String)
    (nm rest : List Char) (_hne : nm ≠ [])
    (hname : ∀ c ∈ nm, isNameChar c = true)
    (hrest : ∀ c, rest.head? = some c → isNameChar c = false) :
    expandStep l e none ('$' :: (nm ++ rest)) =
      lookupVar l e (String.mk nm) ++ expandStep l e none rest := by
  have h1 : expandStep l e none ('$' :: (nm ++ rest)) =
      expandStep l e (some []) (nm ++ rest) := by
    simp [expandStep]
  rw [h1, expandStep_scan l e nm [] rest hname hrest]
  simp

/-- Witness for `expand_variable_precedence`: with local `X=1` and
environment `X=2`, `$X` expands to `1`. -/
theorem expand_variable_precedence_witness :
    expandVariables lX eX "$X" = "1" := by
  have h := expand_variable_precedence lX eX ['X'] [] (by decide)
    (by decide) (by intro c hc; simp at hc)
  have h2 : expandStep lX eX none ("$X").data =
      lookupVar lX eX (String.mk ['X']) ++ expandStep lX eX none [] := h
  unfold expandVariables
  rw [h2]
  decide

/-- C10: a `$` that is not followed by a name character (lone `$`, or `$`
before a space or punctuation) is deleted from the expanded output: the
empty name is looked up, found nowhere, and contributes nothing. The
hypotheses state that neither table binds the empty name, which the shell
never creates. -/
theorem dollar_without_name_deleted (l e : String → Option String)
    (rest : List Char) (hl : l "" = none) (he : e "" = none)
    (hrest : ∀ c, rest.head? = some c → isNameChar c = false) :
    expandStep l e none ('$' :: rest) = expandStep l e none rest := by
  have hlook : lookupVar l e (String.mk ([] : List Char)) = [] := by
    unfold lookupVar
    rw [show l (String.mk ([] : List Char)) = none from hl,
        show e (String.mk ([] : List Char)) = none from he]
  cases rest with
  | nil =>
    have h1 : expandStep l e none ['$'] =
        lookupVar l e (String.mk ([] : List Char)) := by
      simp [expandStep]
    rw [h1, hlook]
    rfl
  | cons c cs =>
    have hc : isNameChar c = false := hrest c rfl
    have h1 : expandStep l e none ('$' :: c :: cs) =
        lookupVar l e (String.mk ([] : List Char)) ++
          expandStep l e none (c :: cs) := by
      simp [expandStep, hc]
    rw [h1, hlook]
    simp

/-- Witness for `dollar_without_name_deleted`: expanding a literal
dollar-space sequence removes the dollar. -/
theorem dollar_without_name_deleted_witness :
    expandVariables f0 f0 "$ x" = " x" := by
  have h := dollar_without_name_deleted f0 f0 [' ', 'x'] rfl rfl
    (by intro c hc; simp at hc; rw [← hc]; decide)
  have h2 : expandStep f0 f0 none ("$ x").data =
      expandStep f0 f0 none ((" x").data) := h
  unfold expandVariables
  rw [h2]
  decide

/-- C5: a failing `cd` (target does not canonicalize, canonical target is
not a directory, or `cd -` with no previous directory recorded) leaves
the whole shell state unchanged: current and previous directory, the
variable table, the running flag and the job list. -/
theorem cd_failure_leaves_state_unchanged (fs : FsModel) (st : ShellState)
    (dir : Option String)
    (h : (changeDirectory fs st dir).2 = CdOutcome.errNoPrevious ∨
         (∃ p, (changeDirectory fs st dir).2 = CdOutcome.errInvalidPath p) ∨
         (∃ p, (changeDirectory fs st dir).2 = CdOutcome.errNotDirectory p)) :
    (changeDirectory fs st dir).1 = st := by
  cases hct : cdTarget fs st dir with
  | none => simp [changeDirectory, hct]
  | some nd =>
    cases hc : fs.canonicalize nd with
    | none => simp [changeDirectory, hct, hc]
    | some c =>
      by_cases hd : fs.isDir c
      · exfalso
        by_cases hw : fs.setCwdOk c <;>
          simp [changeDirectory, hct, hc, hd, hw] at h
      · simp [changeDirectory, hct, hc, hd]

/-- Witness for `cd_failure_leaves_state_unchanged`: a relative path that
does not canonicalize, and `cd -` with no previous directory, both leave
the concrete state `st0` untouched. -/
theorem cd_failure_leaves_state_unchanged_witness :
    (changeDirectory fs0 st0 (some "x")).1 = st0 ∧
    (changeDirectory fs0 st0 (some "-")).1 = st0 :=
  ⟨cd_failure_leaves_state_unchanged fs0 st0 (some "x")
      (Or.inr (Or.inl ⟨pathJoin "/w" "x", rfl⟩)),
   cd_failure_leaves_state_unchanged fs0 st0 (some "-") (Or.inl rfl)⟩

/-- Helper: when the pending-pipe flag is false on entry, the flag
returned by the stdin wiring step is false as well. -/
theorem stageStdin_false_snd (os : OsModel) (i : Nat) (sf : Option String)
    (src : StdinSrc) (b : Bool)
    (h : stageStdin os i sf false = .ok (src, b)) : b = false := by
  cases i with
  | zero =>
    cases sf with
    | none =>
      simp [stageStdin] at h
      exact h.2
    | some f =>
      by_cases ho : os.openInOk f = true
      · simp [stageStdin, ho] at h
        exact h.2
      · simp [stageStdin, ho] at h
  | succ m =>
    simp [stageStdin] at h
    exact h.2

/-- Helper: a stage that is not the last always gets a pipe on stdout,
whether or not a stdout redirection file was given. -/
theorem stageStdout_interior (os : OsModel) (i n : Nat) (sf : Option String)
    (h : i < n - 1) : stageStdout os i n sf = .ok .toPipe := by
  cases sf with
  | none => simp [stageStdout, h]
  | some f =>
    have hne : ¬(i = n - 1) := by omega
    simp [stageStdout, hne, h]

/-- Helper: an in-range `getD` element is a member of the list. -/
theorem getD_mem_of_lt {α : Type} (l : List α) (d : α) :
    ∀ j, j < l.length → l.getD j d ∈ l := by
  induction l with
  | nil => intro j hj; simp at hj
  | cons a t ih =>
    intro j hj
    cases j with
    | zero => simp
    | succ j2 =>
      simp only [List.getD_cons_succ]
      exact List.mem_cons_of_mem _ (ih j2 (by simp at hj; omega))

/-- Helper: once a pipe is pending and the remaining stages start at a
positive index, every stage the loop spawns reads from a pipe. -/
theorem spawnStages_ok_all_fromPipe (os : OsModel) (l e : String → Option String)
    (n : Nat) :
    ∀ (segs : List String) (i pid : Nat) (ws : List StageWiring),
      i + segs.length = n → 0 < i →
      spawnStages os l e n segs i true pid = .ok ws →
      ∀ w ∈ ws, w.stdin = .fromPipe := by
  intro segs
  induction segs with
  | nil =>
    intro i pid ws _ _ hS
    rw [spawnStages.eq_1] at hS
    cases hS
    simp
  | cons seg rest ih =>
    intro i pid ws hn hi hS
    rw [spawnStages.eq_2] at hS
    by_cases hp : (stagePlan l e seg).1 = []
    · rw [if_pos hp] at hS
      refine ih (i + 1) pid ws ?_ (by omega) hS
      simp only [List.length_cons] at hn
      omega
    · rw [if_neg hp] at hS
      obtain ⟨i2, rfl⟩ : ∃ i2, i = i2 + 1 := ⟨i - 1, by omega⟩
      have hsi : stageStdin os (i2 + 1) (stagePlan l e seg).2.1 true =
          .ok (.fromPipe, false) := by
        simp [stageStdin]
      simp only [hsi] at hS
      cases hso : stageStdout os (i2 + 1) n (stagePlan l e seg).2.2 with
      | error c =>
        simp only [hso] at hS
        exact Except.noConfusion hS
      | ok dst =>
        simp only [hso] at hS
        by_cases hsp : os.spawnOk (stagePlan l e seg).1 = true
        · rw [if_pos hsp] at hS
          by_cases hlt : i2 + 1 < n - 1
          · rw [if_pos hlt] at hS
            cases hrec : spawnStages os l e n rest (i2 + 1 + 1) true (pid + 1) with
            | error c =>
              simp only [hrec] at hS
              exact Except.noConfusion hS
            | ok tail =>
              simp only [hrec] at hS
              cases hS
              intro w hw
              rcases List.mem_cons.mp hw with h | h
              · rw [h]
              · exact ih (i2 + 1 + 1) (pid + 1) tail
                  (by simp only [List.length_cons] at hn; omega) (by omega) hrec w h
          · have hrest : rest = [] := by
              simp only [List.length_cons] at hn
              have h0 : rest.length = 0 := by omega
              exact List.length_eq_zero.mp h0
            subst hrest
            rw [if_neg hlt, spawnStages.eq_1] at hS
            simp only at hS
            cases hS
            intro w hw
            rcases List.mem_cons.mp hw with h | h
            · rw [h]
            · cases h
        · rw [if_neg hsp] at hS
          exact Except.noConfusion hS

/-- Helper: starting the loop with no pending pipe, every spawned stage
after the first reads from a pipe. -/
theorem spawnStages_ok_tail_fromPipe (os : OsModel) (l e : String → Option String)
    (n : Nat) :
    ∀ (segs : List String) (i pid : Nat) (ws : List StageWiring),
      i + segs.length = n →
      spawnStages os l e n segs i false pid = .ok ws →
      ∀ w ∈ ws.tail, w.stdin = .fromPipe := by
  intro segs
  induction segs with
  | nil =>
    intro i pid ws _ hS
    rw [spawnStages.eq_1] at hS
    cases hS
    simp
  | cons seg rest ih =>
    intro i pid ws hn hS
    rw [spawnStages.eq_2] at hS
    by_cases hp : (stagePlan l e seg).1 = []
    · rw [if_pos hp] at hS
      exact ih (i + 1) pid ws (by simp only [List.length_cons] at hn; omega) hS
    · rw [if_neg hp] at hS
      cases hsi : stageStdin os i (stagePlan l e seg).2.1 false with
      | error c =>
        simp only [hsi] at hS
        exact Except.noConfusion hS
      | ok sp =>
        obtain ⟨src, b⟩ := sp
        have hb : b = false := stageStdin_false_snd os i _ src b hsi
        subst hb
        simp only [hsi] at hS
        cases hso : stageStdout os i n (stagePlan l e seg).2.2 with
        | error c =>
          simp only [hso] at hS
          exact Except.noConfusion hS
        | ok dst =>
          simp only [hso] at hS
          by_cases hsp : os.spawnOk (stagePlan l e seg).1 = true
          · rw [if_pos hsp] at hS
            by_cases hlt : i < n - 1
            · rw [if_pos hlt] at hS
              cases hrec : spawnStages os l e n rest (i + 1) true (pid + 1) with
              | error c =>
                simp only [hrec] at hS
                exact Except.noConfusion hS
              | ok tail =>
                simp only [hrec] at hS
                cases hS
                intro w hw
                simp only [List.tail_cons] at hw
                exact spawnStages_ok_all_fromPipe os l e n rest (i + 1) (pid + 1)
                  tail (by simp only [List.length_cons] at hn; omega) (by omega)
                  hrec w hw
            · have hrest : rest = [] := by
                simp only [List.length_cons] at hn
                have h0 : rest.length = 0 := by omega
                exact List.length_eq_zero.mp h0
              subst hrest
              rw [if_neg hlt, spawnStages.eq_1] at hS
              simp only at hS
              cases hS
              intro w hw
              simp only [List.tail_cons] at hw
              cases hw
          · rw [if_neg hsp] at hS
            exact Except.noConfusion hS

/-- Helper: every spawned stage that is followed by another spawned stage
writes its stdout to a pipe. -/
theorem spawnStages_ok_interior_stdout (os : OsModel) (l e : String → Option String)
    (n : Nat) :
    ∀ (segs : List String) (i : Nat) (pp : Bool) (pid : Nat) (ws : List StageWiring),
      i + segs.length = n →
      spawnStages os l e n segs i pp pid = .ok ws →
      ∀ j, j + 1 < ws.length → (ws.getD j dummyStage).stdout = .toPipe := by
  intro segs
  induction segs with
  | nil =>
    intro i pp pid ws _ hS
    rw [spawnStages.eq_1] at hS
    cases hS
    intro j hj
    simp at hj
  | cons seg rest ih =>
    intro i pp pid ws hn hS
    rw [spawnStages.eq_2] at hS
    by_cases hp : (stagePlan l e seg).1 = []
    · rw [if_pos hp] at hS
      exact ih (i + 1) pp pid ws (by simp only [List.length_cons] at hn; omega) hS
    · rw [if_neg hp] at hS
      cases hsi : stageStdin os i (stagePlan l e seg).2.1 pp with
      | error c =>
        simp only [hsi] at hS
        exact Except.noConfusion hS
      | ok sp =>
        simp only [hsi] at hS
        cases hso : stageStdout os i n (stagePlan l e seg).2.2 with
        | error c =>
          simp only [hso] at hS
          exact Except.noConfusion hS
        | ok dst =>
          simp only [hso] at hS
          by_cases hsp : os.spawnOk (stagePlan l e seg).1 = true
          · rw [if_pos hsp] at hS
            cases hrec : spawnStages os l e n rest (i + 1)
                (if i < n - 1 then true else sp.2) (pid + 1) with
            | error c =>
              simp only [hrec] at hS
              exact Except.noConfusion hS
            | ok tail =>
              simp only [hrec] at hS
              cases hS
              intro j hj
              cases j with
              | zero =>
                have htl : tail ≠ [] := by
                  intro h0
                  subst h0
                  simp at hj
                have hrne : rest ≠ [] := by
                  intro h0
                  subst h0
                  rw [spawnStages.eq_1] at hrec
                  cases hrec
                  exact htl rfl
                have hlt : i < n - 1 := by
                  have h1 : 0 < rest.length := List.length_pos.mpr hrne
                  simp only [List.length_cons] at hn
                  omega
                have hso2 := stageStdout_interior os i n (stagePlan l e seg).2.2 hlt
                rw [hso2] at hso
                injection hso with h
                simp only [List.getD_cons_zero]
                exact h.symm
              | succ j2 =>
                have hre := ih (i + 1) _ (pid + 1) tail
                  (by simp only [List.length_cons] at hn; omega) hrec j2
                  (by simp only [List.length_cons] at hj; omega)
                simpa [List.getD_cons_succ] using hre
          · rw [if_neg hsp] at hS
            exact Except.noConfusion hS

/-- C7: in every multi-stage pipeline that spawns successfully, only the
first stage may read its stdin from a file and only the last stage may
write its stdout to a file; every stage after the first reads from the
inter-process pipe and every stage before the last writes to one. -/
theorem pipeline_interior_wiring_is_pipes (os : OsModel)
    (l e : String → Option String) (segs : List String)
    (ws : List StageWiring) (_hlen : 2 ≤ segs.length)
    (hspawn : spawnStages os l e segs.length segs 0 false 0 = Except.ok ws) :
    (∀ j, 0 < j → j < ws.length →
        (ws.getD j dummyStage).stdin = StdinSrc.fromPipe) ∧
    (∀ j, j + 1 < ws.length →
        (ws.getD j dummyStage).stdout = StdoutDst.toPipe) ∧
    (∀ j p, j < ws.length →
        (ws.getD j dummyStage).stdin = StdinSrc.fromFile p → j = 0) ∧
    (∀ j p, j < ws.length →
        (ws.getD j dummyStage).stdout = StdoutDst.toFile p → j + 1 = ws.length) := by
  have hB := spawnStages_ok_tail_fromPipe os l e segs.length segs 0 0 ws
    (by simp) hspawn
  have hC := spawnStages_ok_interior_stdout os l e segs.length segs 0 false 0 ws
    (by simp) hspawn
  have h1 : ∀ j, 0 < j → j < ws.length →
      (ws.getD j dummyStage).stdin = StdinSrc.fromPipe := by
    intro j hj0 hjl
    cases ws with
    | nil => simp at hjl
    | cons w t =>
      cases j with
      | zero => omega
      | succ j2 =>
        have hmem : t.getD j2 dummyStage ∈ t :=
          getD_mem_of_lt t dummyStage j2 (by simp at hjl; omega)
        have hw := hB (t.getD j2 dummyStage) (by simpa using hmem)
        simpa [List.getD_cons_succ] using hw
  refine ⟨h1, hC, ?_, ?_⟩
  · intro j p hjl hfile
    cases j with
    | zero => rfl
    | succ j2 =>
      exfalso
      rw [h1 (j2 + 1) (by omega) hjl] at hfile
      cases hfile
  · intro j p hjl hfile
    by_cases hj : j + 1 < ws.length
    · exfalso
      rw [hC j hj] at hfile
      cases hfile
    · omega

/-- Witness for `pipeline_interior_wiring_is_pipes` on the concrete
three-stage pipeline `segs7`: the middle stage is wired pipe-to-pipe. -/
theorem pipeline_interior_wiring_is_pipes_witness :
    (ws7.getD 1 dummyStage).stdin = StdinSrc.fromPipe ∧
    (ws7.getD 1 dummyStage).stdout = StdoutDst.toPipe := by
  have h := pipeline_interior_wiring_is_pipes osT f0 f0 segs7 ws7
    (by decide) (by rfl)
  exact ⟨h.1 1 (by decide) (by decide), h.2.1 1 (by decide)⟩

/-- C4: a background pipeline records exactly one job, keyed by the pid of
the last spawned stage, prints the Running-in-background message and waits
on nothing; a foreground pipeline waits on every spawned stage (in spawn
order), records no job and prints nothing. -/
theorem background_one_job_foreground_waits_all (os : OsModel)
    (l e : String → Option String) (segs : List String)
    (ws : List StageWiring) (w : StageWiring)
    (_hlen : 2 ≤ segs.length)
    (hspawn : spawnStages os l e segs.length segs 0 false 0 = Except.ok ws)
    (hlast : ws.getLast? = some w) :
    processPipedCommands os l e segs true = ShellStep.ran ws [] [w.pid] true ∧
    processPipedCommands os l e segs false =
      ShellStep.ran ws (ws.map (fun s => s.pid)) [] false := by
  constructor
  · simp [processPipedCommands, hspawn, hlast]
  · simp [processPipedCommands, hspawn]

/-- Witness for `background_one_job_foreground_waits_all` on the concrete
pipeline `seq 5 | wc -l`. -/
theorem background_one_job_foreground_waits_all_witness :
    processPipedCommands osT f0 f0 ["seq 5", "wc -l"] true =
      ShellStep.ran ws4 [] [1] true ∧
    processPipedCommands osT f0 f0 ["seq 5", "wc -l"] false =
      ShellStep.ran ws4 [0, 1] [] false := by
  have h := background_one_job_foreground_waits_all osT f0 f0
    ["seq 5", "wc -l"] ws4 ⟨["wc", "-l"], .fromPipe, .inherit, 1⟩
    (by decide) (by rfl) (by rfl)
  exact ⟨h.1, h.2⟩

/-- C1 counterexample: in a two-stage pipeline whose second stage fails to
spawn, the shell process terminates with exit code 1
(`std::process::exit(1)`, vssh.rs:244) instead of reporting and
continuing; the failure is fatal to the shell session. -/
theorem pipeline_spawn_failure_is_fatal :
    processPipedCommands osFail f0 f0 ["ls", "nosuchcmd"] false =
      ShellStep.fatal 1 := by
  rfl

/-- Helper: the spawn step of the single-command path never exits the
shell. -/
theorem execSpawn_not_fatal (os : OsModel) (parts : List String)
    (src : StdinSrc) (dst : StdoutDst) (bg : Bool) :
    (execSpawn os parts src dst bg).isFatal = false := by
  unfold execSpawn
  split
  · split <;> rfl
  · rfl

/-- Helper: the stdout-wiring step of the single-command path never exits
the shell. -/
theorem execWithStdin_not_fatal (os : OsModel) (parts : List String)
    (src : StdinSrc) (stdoutFile : Option String) (bg : Bool) :
    (execWithStdin os parts src stdoutFile bg).isFatal = false := by
  cases stdoutFile with
  | none =>
    simp only [execWithStdin]
    exact execSpawn_not_fatal os parts src .inherit bg
  | some f =>
    simp only [execWithStdin]
    split
    · exact execSpawn_not_fatal os parts src (.toFile f) bg
    · rfl

/-- Helper: `execute_external_command` never exits the shell: open and
spawn failures are reported to standard error and the session continues. -/
theorem executeExternalCommand_not_fatal (os : OsModel)
    (l e : String → Option String) (c : String) (si so : Option String)
    (bg : Bool) :
    (executeExternalCommand os l e c si so bg).isFatal = false := by
  cases hp : splitWs (expandVariables l e c) with
  | nil =>
    simp only [executeExternalCommand, hp]
    rfl
  | cons p0 prest =>
    cases si with
    | none =>
      simp only [executeExternalCommand, hp]
      exact execWithStdin_not_fatal os (p0 :: prest) .inherit so bg
    | some f =>
      simp only [executeExternalCommand, hp]
      split
      · exact execWithStdin_not_fatal os (p0 :: prest) (.fromFile f) so bg
      · rfl

/-- C1 amended: failures to open a redirection target or to spawn are
reported and non-fatal only on the single-command path
(`execute_external_command`); on the multi-stage pipeline path any such
failure terminates the whole shell process with exit code 1. -/
theorem single_stage_failures_nonfatal_piped_fatal :
    (∀ (os : OsModel) (l e : String → Option String) (c : String)
        (si so : Option String) (bg : Bool),
        (executeExternalCommand os l e c si so bg).isFatal = false) ∧
    processPipedCommands osFail2 f0 f0 ["echo hi", "nosuch2"] false =
      ShellStep.fatal 1 :=
  ⟨executeExternalCommand_not_fatal, by rfl⟩
